import Mathlib

/-!
Verification of the geospatial converter (src/main.py).

Shallow embedding of the coordinate-processing and geocoding pipeline:

* the projection engine (`mercator_projection`, `inverse_mercator`) is
  embedded over `ℝ` (Python floats idealised as real numbers);
* coordinates fed to the cache/geocoding pipeline are embedded as `ℚ`
  (every Python float is a rational number); the Python `round(x, 4)` function is
  idealised as `round (x * 10000) / 10000` with the Mathlib `round` function
  (Python rounds half to even, the ideal model rounds half up — the two
  agree except at exact five-in-the-fifth-decimal ties, which none of the
  verified properties depend on);
* the in-memory cache dictionary is a function `String → Option String`;
* the external reverse-geocoding service is an explicit parameter
  `ℚ → ℚ → GeoResult` covering the three observable outcomes of
  `geolocator.reverse` (an address, `None`, a raised exception);
* I/O effects of `main` (printing a fatal error, flushing the cache) are
  recorded in an explicit effect trace.
-/

open Real

namespace Geo

/-! ## Projection engine (src/main.py lines 196–211) -/

/-- Python `math.radians(d)`: degrees to radians. -/
noncomputable def radians (d : ℝ) : ℝ := d * (π / 180)

/-- Python `math.degrees(r)`: radians to degrees. -/
noncomputable def degrees (r : ℝ) : ℝ := r * (180 / π)

/-- The scale constant `R = 6371000/637.1` appearing in both projection
functions. -/
noncomputable def R : ℝ := 6371000 / 637.1

/-- The latitude clamp `lat = max(min(lat, 89.9), -89.9)` performed at the
start of `mercator_projection`. -/
noncomputable def clampLat (lat : ℝ) : ℝ := max (min lat 89.9) (-89.9)

/-- Python `mercator_projection(lat, lon)` (src/main.py lines 196–203): clamp the
latitude, then return `(R·radians(lon), R·ln(tan(π/4 + radians(lat)/2)))`. -/
noncomputable def mercator_projection (lat lon : ℝ) : ℝ × ℝ :=
  (R * radians lon, R * Real.log (Real.tan (π / 4 + radians (clampLat lat) / 2)))

/-- Python `inverse_mercator(x, y)` (src/main.py lines 205–211):
`(degrees(2·atan(exp(y/R)) − π/2), degrees(x/R))`. -/
noncomputable def inverse_mercator (x y : ℝ) : ℝ × ℝ :=
  (degrees (2 * Real.arctan (Real.exp (y / R)) - π / 2), degrees (x / R))

/-! ## Cache keys (src/main.py lines 97, 139, 266)

The key is `f"{round(lat, 4):.4f},{round(lon, 4):.4f}"`.  Python floats are
embedded as `ℚ`; `round(x, 4)` is idealised as `round (x * 10000) / 10000`
and `%.4f` as fixed-point rendering of the rounded value with a minus sign,
decimal integer part, a dot and exactly four fractional digits. -/

/-- Python `round(x, 4)` over `ℚ`. -/
def round4 (x : ℚ) : ℚ := (round (x * 10000) : ℚ) / 10000

/-- Decimal digit characters of `n`, most significant first, by fuel
recursion (`fuel ≥ n` suffices). -/
def natCharsAux : ℕ → ℕ → List Char
  | 0, _ => []
  | fuel + 1, n => if n = 0 then [] else natCharsAux fuel (n / 10) ++ [Nat.digitChar (n % 10)]

/-- Decimal rendering of a natural number as a character list, as Python
prints integers. -/
def natChars (n : ℕ) : List Char := if n = 0 then ['0'] else natCharsAux n n

/-- The four fractional digit characters of `%.4f`, for the scaled
fractional part `f < 10000`. -/
def fracChars (f : ℕ) : List Char :=
  [Nat.digitChar (f / 1000), Nat.digitChar (f / 100 % 10),
   Nat.digitChar (f / 10 % 10), Nat.digitChar (f % 10)]

/-- Character sequence of the fixed-four-decimal rendering of `n / 10000`:
optional minus sign, integer part, dot, four fractional digits. -/
def fixedChars (n : ℤ) : List Char :=
  (if n < 0 then ['-'] else []) ++ natChars (n.natAbs / 10000)
    ++ '.' :: fracChars (n.natAbs % 10000)

/-- Python `f"{q:.4f}"` over `ℚ`: round to four decimals, then render with
exactly four fractional digits. -/
def fmt4 (q : ℚ) : String := ⟨fixedChars (round (q * 10000))⟩

/-- The cache key `f"{round(lat, 4):.4f},{round(lon, 4):.4f}"`. -/
def cacheKey (lat lon : ℚ) : String := fmt4 (round4 lat) ++ "," ++ fmt4 (round4 lon)

/-! ## Geocode cache and batch geocoding (src/main.py lines 20–141) -/

/-- The in-memory cache dictionary `cache`: key string → address string. -/
abbrev Cache := String → Option String

/-- The empty cache (`cache = {}`, src/main.py line 21). -/
def emptyCache : Cache := fun _ => none

/-- Dictionary assignment `cache[key] = result` (src/main.py line 125). -/
def cacheSet (c : Cache) (k v : String) : Cache :=
  fun k2 => if k2 = k then some v else c k2

/-- The three observable outcomes of one `geolocator.reverse` call: an
address, no result (`None`), or a raised exception carrying message `msg`. -/
inductive GeoResult : Type
  | found (address : String)
  | empty
  | failure (msg : String)

/-- The external reverse-geocoding service, an explicit parameter of the
embedding. -/
abbrev Geocoder := ℚ → ℚ → GeoResult

/-- Python `process_coord` (src/main.py lines 110–115): the string stored for one
coordinate — the address on success, `"Not found"` when the service returns
no result, and `"Error: " + str(e)` when the lookup raised.  The `try/except` in the source returns in every case, which is why this embedding is a total
function: no exception escapes the resolution of a single coordinate. -/
def processCoord (g : Geocoder) (lat lon : ℚ) : String :=
  match g lat lon with
  | .found a => a
  | .empty => "Not found"
  | .failure e => "Error: " ++ e

/-- Outcome of `batch_geocode`: the final cache, the returned mapping (the
association list produced by the final dict comprehension, in input order),
and the number of reverse-geocoding calls issued (`ThreadPoolExecutor`
submits exactly one `process_coord` per uncached coordinate, and
`max_workers=1` serialises them in submission order). -/
structure BatchResult : Type where
  cache : Cache
  result : List ((ℚ × ℚ) × String)
  calls : ℕ

/-- Python `batch_geocode(coordinates)` (src/main.py lines 87–141): collect the
coordinates whose cache key is absent; if none, return the empty mapping at
once with the cache untouched; otherwise resolve each uncached coordinate,
store the outcome under its key, and return a mapping from each original
rounded input pair to the post-update cache value under its key, with
`"Error"` as the (unreachable) dictionary-get default. -/
def batchGeocode (g : Geocoder) (c : Cache) (coordinates : List (ℚ × ℚ)) :
    BatchResult :=
  let newCoords := coordinates.filter fun p => (c (cacheKey p.1 p.2)).isNone
  if newCoords.isEmpty then ⟨c, [], 0⟩
  else
    let c2 := newCoords.foldl
      (fun acc p => cacheSet acc (cacheKey p.1 p.2) (processCoord g p.1 p.2)) c
    ⟨c2,
      coordinates.map fun p =>
        ((round4 p.1, round4 p.2), (c2 (cacheKey p.1 p.2)).getD "Error"),
      newCoords.length⟩

/-! ## Conversion orchestrator (src/main.py lines 213–300) -/

/-- The deduplicated rounded coordinate set built in `main`
(src/main.py line 250): `{(round(lat, 4), round(lon, 4)) for lat, lon in coords}`,
modelled as a duplicate-free list of the rounded pairs. -/
def mainDedup (coords : List (ℚ × ℚ)) : List (ℚ × ℚ) :=
  (coords.map fun p => (round4 p.1, round4 p.2)).dedup

/-- One output row (src/main.py lines 269–274). -/
structure EnrichedRecord : Type where
  lat : ℚ
  lon : ℚ
  x : ℝ
  y : ℝ
  revLat : ℝ
  revLon : ℝ
  address : String

/-- The per-row output loop of `main` (src/main.py lines 253–278): skip rows
whose latitude or longitude is out of range, project and reproject the rest,
and attach the address found in the cache under the rounded key, with
dictionary-get default `"Address lookup disabled"`. -/
noncomputable def enrich (c : Cache) (coords : List (ℚ × ℚ)) :
    List EnrichedRecord :=
  coords.filterMap fun p =>
    if -90 ≤ p.1 ∧ p.1 ≤ 90 ∧ -180 ≤ p.2 ∧ p.2 ≤ 180 then
      some { lat := p.1, lon := p.2,
             x := (mercator_projection (p.1 : ℝ) (p.2 : ℝ)).1,
             y := (mercator_projection (p.1 : ℝ) (p.2 : ℝ)).2,
             revLat := (inverse_mercator (mercator_projection (p.1 : ℝ) (p.2 : ℝ)).1
               (mercator_projection (p.1 : ℝ) (p.2 : ℝ)).2).1,
             revLon := (inverse_mercator (mercator_projection (p.1 : ℝ) (p.2 : ℝ)).1
               (mercator_projection (p.1 : ℝ) (p.2 : ℝ)).2).2,
             address := (c (cacheKey p.1 p.2)).getD "Address lookup disabled" }
    else none

/-- The cache visible to the output loop of `main`: the loaded cache,
updated by `batch_geocode` over the deduplicated rounded set exactly when
address lookup was requested (src/main.py lines 246–251).  `load_cache()`
runs unconditionally at line 230, so the loaded cache is consulted by the
output loop even when lookup is disabled. -/
def mainCache (lookupEnabled : Bool) (g : Geocoder) (c : Cache)
    (coords : List (ℚ × ℚ)) : Cache :=
  if lookupEnabled then (batchGeocode g c (mainDedup coords)).cache else c

/-- The records `main` emits for a run with loaded cache `c`. -/
noncomputable def mainRecords (lookupEnabled : Bool) (g : Geocoder) (c : Cache)
    (coords : List (ℚ × ℚ)) : List EnrichedRecord :=
  enrich (mainCache lookupEnabled g c coords) coords

/-- Externally visible I/O effects of `main` that the claims mention. -/
inductive Effect : Type
  | printedError (msg : String)
  | wroteCsv (rows : ℕ)
  | wroteMap
  | savedCache

/-- Control flow of `main` (src/main.py lines 213–300), as its effect trace.
Inside the `try` body: a missing `coordinates.csv` raises
`ValueError("Coordinates file not found. ...")`; the output rows are written
to CSV; `create_optimized_map` divides by `len(data)`, so zero output rows
raise `ZeroDivisionError("division by zero")` before the map is written.
The `except` clause prints the error message; the `finally` clause saves the
cache on every exit path. -/
noncomputable def runMain (fileExists lookupEnabled : Bool) (g : Geocoder)
    (c : Cache) (coords : List (ℚ × ℚ)) : List Effect :=
  (if fileExists = false then
    [Effect.printedError
      "Coordinates file not found. Please create coordinates.csv or use interactive input"]
  else
    (Effect.wroteCsv (mainRecords lookupEnabled g c coords).length) ::
      (if (mainRecords lookupEnabled g c coords).isEmpty then
        [Effect.printedError "division by zero"]
      else
        [Effect.wroteMap]))
  ++ [Effect.savedCache]

/-! ## Concrete fixtures used by witnesses and counterexamples -/

/-- A stub service that always reports no result. -/
def gEmpty : Geocoder := fun _ _ => .empty

/-- A stub service that fails (raises) at latitude 2 and otherwise returns
an address. -/
def gFailAt2 : Geocoder := fun lat _ =>
  if lat = 2 then .failure "timeout" else .found "Resolved Address"

/-- The deduplication example input of the spec: two coordinates that both
round to (1.0000, 2.0000). -/
def dedupExample : List (ℚ × ℚ) := [(1.00001, 2.00001), (1.00002, 2.00002)]

/-- A cache holding one entry, for the key of the coordinate (1, 2). -/
def cacheOne : Cache := cacheSet emptyCache (cacheKey 1 2) "1 Cached Street"

/-- A cache holding an address for the coordinate (40, −74). -/
def cacheNY : Cache := cacheSet emptyCache (cacheKey 40 (-74)) "New York"

/-! ## Helper theorems -/

theorem R_eq : R = 10000 := by
  unfold R; norm_num

theorem R_pos : (0 : ℝ) < R := by rw [R_eq]; norm_num

theorem R_ne_zero : R ≠ 0 := ne_of_gt R_pos

/-- For latitudes strictly above −90°, the tangent argument is positive. -/
theorem angle_pos {t : ℝ} (h : -90 < t) : 0 < π / 4 + radians t / 2 := by
  unfold radians
  nlinarith [pi_pos]

/-- For latitudes strictly below 90°, the tangent argument stays below π/2. -/
theorem angle_lt {t : ℝ} (h : t < 90) : π / 4 + radians t / 2 < π / 2 := by
  unfold radians
  nlinarith [pi_pos]

theorem degrees_radians (d : ℝ) : degrees (radians d) = d := by
  unfold degrees radians
  field_simp

/-- The Mercator y-formula is monotone in the latitude on the clamped range. -/
theorem ylog_mono {a b : ℝ} (ha : -89.9 ≤ a) (hab : a ≤ b) (hb : b ≤ 89.9) :
    R * Real.log (Real.tan (π / 4 + radians a / 2)) ≤
      R * Real.log (Real.tan (π / 4 + radians b / 2)) := by
  have hapos : 0 < π / 4 + radians a / 2 := angle_pos (by linarith)
  have hbpos : 0 < π / 4 + radians b / 2 := angle_pos (by linarith)
  have halt : π / 4 + radians a / 2 < π / 2 := angle_lt (by linarith)
  have hblt : π / 4 + radians b / 2 < π / 2 := angle_lt (by linarith)
  have hmono : π / 4 + radians a / 2 ≤ π / 4 + radians b / 2 := by
    unfold radians; nlinarith [pi_pos]
  have hta : 0 < Real.tan (π / 4 + radians a / 2) :=
    Real.tan_pos_of_pos_of_lt_pi_div_two hapos halt
  have htb : 0 < Real.tan (π / 4 + radians b / 2) :=
    Real.tan_pos_of_pos_of_lt_pi_div_two hbpos hblt
  have htan : Real.tan (π / 4 + radians a / 2) ≤ Real.tan (π / 4 + radians b / 2) := by
    rcases eq_or_lt_of_le hmono with heq | hlt
    · rw [heq]
    · exact le_of_lt (Real.tan_lt_tan_of_lt_of_lt_pi_div_two (by linarith) hblt hlt)
  exact mul_le_mul_of_nonneg_left
    ((Real.log_le_log_iff hta htb).mpr htan) (le_of_lt R_pos)

theorem clampLat_mem {lat : ℝ} : -89.9 ≤ clampLat lat ∧ clampLat lat ≤ 89.9 := by
  unfold clampLat
  constructor
  · exact le_max_right _ _
  · exact max_le (min_le_right _ _) (by norm_num)

theorem clampLat_idem (lat : ℝ) : clampLat (clampLat lat) = clampLat lat := by
  have h := @clampLat_mem lat
  unfold clampLat
  rw [min_eq_left, max_eq_left]
  · exact h.1
  · exact h.2

/-- Claim C2: `mercator_projection` first clamps the latitude and then returns
exactly `(R·radians(lon), R·ln(tan(π/4 + radians(clamped lat)/2)))`; the
projected Y always equals the value at the clamped latitude and stays between
the two fixed real values attained at latitudes −89.9 and 89.9 (so it never
diverges: in the real-number embedding the y-value is a finite real bounded
independently of the input latitude). -/
theorem mercator_clamps_and_stays_finite (lat lon : ℝ) :
    mercator_projection lat lon =
      (R * radians lon, R * Real.log (Real.tan (π / 4 + radians (clampLat lat) / 2)))
    ∧ (mercator_projection lat lon).2 = (mercator_projection (clampLat lat) lon).2
    ∧ (mercator_projection (-89.9) lon).2 ≤ (mercator_projection lat lon).2
    ∧ (mercator_projection lat lon).2 ≤ (mercator_projection 89.9 lon).2 := by
  have hmem := @clampLat_mem lat
  refine ⟨rfl, ?_, ?_, ?_⟩
  · simp only [mercator_projection, clampLat_idem]
  · simp only [mercator_projection]
    have hc : clampLat (-89.9) = -89.9 := by
      unfold clampLat
      rw [min_eq_left (by norm_num), max_eq_left (by norm_num)]
    rw [hc]
    exact ylog_mono (le_refl _) hmem.1 hmem.2
  · simp only [mercator_projection]
    have hc : clampLat (89.9 : ℝ) = 89.9 := by
      unfold clampLat
      rw [min_eq_left (by norm_num), max_eq_left (by norm_num)]
    rw [hc]
    exact ylog_mono hmem.1 hmem.2 (le_refl _)

/-- Claim C1: For latitudes in [−89.9, 89.9] and longitudes in [−180, 180] the
forward clamp is the identity (no clamping takes effect) and
`inverse_mercator ∘ mercator_projection` reproduces the input exactly, hence
in particular to within 1e-6 degrees. -/
theorem mercator_roundtrip (lat lon : ℝ) (h1 : -89.9 ≤ lat) (h2 : lat ≤ 89.9)
    (h3 : -180 ≤ lon) (h4 : lon ≤ 180) :
    clampLat lat = lat
    ∧ inverse_mercator (mercator_projection lat lon).1 (mercator_projection lat lon).2
        = (lat, lon)
    ∧ |(inverse_mercator (mercator_projection lat lon).1
          (mercator_projection lat lon).2).1 - lat| ≤ 1 / 1000000
    ∧ |(inverse_mercator (mercator_projection lat lon).1
          (mercator_projection lat lon).2).2 - lon| ≤ 1 / 1000000 := by
  have hc : clampLat lat = lat := by
    unfold clampLat
    rw [min_eq_left h2, max_eq_left h1]
  have hθ0 : 0 < π / 4 + radians lat / 2 := angle_pos (by linarith)
  have hθ2 : π / 4 + radians lat / 2 < π / 2 := angle_lt (by linarith)
  have htanpos : 0 < Real.tan (π / 4 + radians lat / 2) :=
    Real.tan_pos_of_pos_of_lt_pi_div_two hθ0 hθ2
  have hpair :
      inverse_mercator (mercator_projection lat lon).1 (mercator_projection lat lon).2
        = (lat, lon) := by
    unfold inverse_mercator mercator_projection
    rw [hc]
    have hx : R * radians lon / R = radians lon :=
      mul_div_cancel_left₀ _ R_ne_zero
    have hy : R * Real.log (Real.tan (π / 4 + radians lat / 2)) / R
        = Real.log (Real.tan (π / 4 + radians lat / 2)) :=
      mul_div_cancel_left₀ _ R_ne_zero
    simp only [hx, hy]
    rw [Real.exp_log htanpos,
      Real.arctan_tan (by linarith [pi_pos]) hθ2]
    have hlat : 2 * (π / 4 + radians lat / 2) - π / 2 = radians lat := by ring
    rw [hlat, degrees_radians, degrees_radians]
  refine ⟨hc, hpair, ?_, ?_⟩
  · rw [hpair]
    norm_num
  · rw [hpair]
    norm_num

/-- Witness for C1 at the concrete input (0, 0). -/
theorem mercator_roundtrip_witness :
    clampLat 0 = 0
    ∧ inverse_mercator (mercator_projection 0 0).1 (mercator_projection 0 0).2
        = (0, 0) := by
  have h := mercator_roundtrip 0 0 (by norm_num) (by norm_num) (by norm_num) (by norm_num)
  exact ⟨h.1, h.2.1⟩

theorem natCharsAux_eq (fuel n : ℕ) (h : n ≤ fuel) :
    natCharsAux fuel n = ((Nat.digits 10 n).map Nat.digitChar).reverse := by
  induction fuel generalizing n with
  | zero =>
    have hn : n = 0 := by omega
    subst hn
    simp [natCharsAux]
  | succ f ih =>
    by_cases hn : n = 0
    · subst hn; simp [natCharsAux]
    · rw [natCharsAux, if_neg hn, ih (n / 10) (by omega),
        Nat.digits_def' (by norm_num : 1 < 10) (Nat.pos_of_ne_zero hn)]
      simp

theorem natChars_eq (n : ℕ) :
    natChars n = if n = 0 then ['0'] else ((Nat.digits 10 n).map Nat.digitChar).reverse := by
  unfold natChars
  by_cases hn : n = 0
  · simp [hn]
  · rw [if_neg hn, if_neg hn, natCharsAux_eq n n (le_refl n)]

theorem digitChar_inj {a b : ℕ} (ha : a < 10) (hb : b < 10)
    (h : Nat.digitChar a = Nat.digitChar b) : a = b := by
  interval_cases a <;> interval_cases b <;> revert h <;> decide

theorem digitChar_ne_symbols {d : ℕ} (hd : d < 10) :
    Nat.digitChar d ≠ '-' ∧ Nat.digitChar d ≠ ',' ∧ Nat.digitChar d ≠ '.' := by
  interval_cases d <;> exact ⟨by decide, by decide, by decide⟩

theorem mem_natChars {c : Char} {n : ℕ} (h : c ∈ natChars n) :
    ∃ d, d < 10 ∧ c = Nat.digitChar d := by
  rw [natChars_eq] at h
  by_cases hn : n = 0
  · rw [if_pos hn] at h
    simp at h
    exact ⟨0, by norm_num, by rw [h]; rfl⟩
  · rw [if_neg hn] at h
    rw [List.mem_reverse, List.mem_map] at h
    obtain ⟨d, hd, hc⟩ := h
    exact ⟨d, Nat.digits_lt_base (by norm_num) hd, hc.symm⟩

theorem mem_fracChars {c : Char} {f : ℕ} (hf : f < 10000) (h : c ∈ fracChars f) :
    ∃ d, d < 10 ∧ c = Nat.digitChar d := by
  unfold fracChars at h
  simp only [List.mem_cons, List.not_mem_nil, or_false] at h
  rcases h with h | h | h | h
  · exact ⟨f / 1000, by omega, h⟩
  · exact ⟨f / 100 % 10, Nat.mod_lt _ (by norm_num), h⟩
  · exact ⟨f / 10 % 10, Nat.mod_lt _ (by norm_num), h⟩
  · exact ⟨f % 10, Nat.mod_lt _ (by norm_num), h⟩

theorem natChars_ne_nil (n : ℕ) : natChars n ≠ [] := by
  rw [natChars_eq]
  by_cases hn : n = 0
  · simp [hn]
  · rw [if_neg hn]
    simp [Nat.digits_ne_nil_iff_ne_zero.mpr hn]

theorem dot_not_mem_natChars (n : ℕ) : '.' ∉ natChars n := by
  intro h
  obtain ⟨d, hd, hc⟩ := mem_natChars h
  exact (digitChar_ne_symbols hd).2.2 hc.symm

theorem dash_not_mem_natChars (n : ℕ) : '-' ∉ natChars n := by
  intro h
  obtain ⟨d, hd, hc⟩ := mem_natChars h
  exact (digitChar_ne_symbols hd).1 hc.symm

theorem comma_not_mem_natChars (n : ℕ) : ',' ∉ natChars n := by
  intro h
  obtain ⟨d, hd, hc⟩ := mem_natChars h
  exact (digitChar_ne_symbols hd).2.1 hc.symm

theorem comma_not_mem_fixedChars (n : ℤ) : ',' ∉ fixedChars n := by
  unfold fixedChars
  intro h
  simp only [List.mem_append, List.mem_cons] at h
  rcases h with (h | h) | (h | h)
  · by_cases hn : n < 0
    · rw [if_pos hn] at h
      simp at h
    · rw [if_neg hn] at h
      simp at h
  · exact comma_not_mem_natChars _ h
  · simp at h
  · obtain ⟨d, hd, hc⟩ := mem_fracChars (Nat.mod_lt _ (by norm_num)) h
    exact (digitChar_ne_symbols hd).2.1 hc.symm

theorem map_digitChar_inj : ∀ (l1 l2 : List ℕ), (∀ x ∈ l1, x < 10) → (∀ x ∈ l2, x < 10) →
    l1.map Nat.digitChar = l2.map Nat.digitChar → l1 = l2 := by
  intro l1
  induction l1 with
  | nil =>
    intro l2 _ _ h
    cases l2 with
    | nil => rfl
    | cons b bs => simp at h
  | cons a as ih =>
    intro l2 h1 h2 h
    cases l2 with
    | nil => simp at h
    | cons b bs =>
      simp only [List.map_cons, List.cons.injEq] at h
      have ha : a < 10 := h1 a (List.mem_cons_self a as)
      have hb : b < 10 := h2 b (List.mem_cons_self b bs)
      rw [digitChar_inj ha hb h.1,
        ih bs (fun x hx => h1 x (List.mem_cons_of_mem _ hx))
          (fun x hx => h2 x (List.mem_cons_of_mem _ hx)) h.2]

theorem natChars_inj {m n : ℕ} (h : natChars m = natChars n) : m = n := by
  rw [natChars_eq, natChars_eq] at h
  by_cases hm : m = 0 <;> by_cases hn : n = 0
  · omega
  · rw [if_pos hm, if_neg hn] at h
    exfalso
    have h2 : (Nat.digits 10 n).map Nat.digitChar = ['0'] := by
      have h3 := congrArg List.reverse h
      simpa using h3.symm
    cases hd : Nat.digits 10 n with
    | nil => rw [hd] at h2; simp at h2
    | cons d l =>
      rw [hd] at h2
      simp only [List.map_cons, List.cons.injEq] at h2
      have hd10 : d < 10 := Nat.digits_lt_base (by norm_num)
        (hd ▸ List.mem_cons_self d l)
      have hd0 : d = 0 := digitChar_inj hd10 (by norm_num) h2.1
      have hl : l = [] := List.map_eq_nil_iff.mp h2.2
      have hofd := Nat.ofDigits_digits 10 n
      rw [hd, hl, hd0] at hofd
      simp [Nat.ofDigits] at hofd
      exact hn hofd.symm
  · rw [if_neg hm, if_pos hn] at h
    exfalso
    have h2 : (Nat.digits 10 m).map Nat.digitChar = ['0'] := by
      have h3 := congrArg List.reverse h
      simpa using h3
    cases hd : Nat.digits 10 m with
    | nil => rw [hd] at h2; simp at h2
    | cons d l =>
      rw [hd] at h2
      simp only [List.map_cons, List.cons.injEq] at h2
      have hd10 : d < 10 := Nat.digits_lt_base (by norm_num)
        (hd ▸ List.mem_cons_self d l)
      have hd0 : d = 0 := digitChar_inj hd10 (by norm_num) h2.1
      have hl : l = [] := List.map_eq_nil_iff.mp h2.2
      have hofd := Nat.ofDigits_digits 10 m
      rw [hd, hl, hd0] at hofd
      simp [Nat.ofDigits] at hofd
      exact hm hofd.symm
  · rw [if_neg hm, if_neg hn] at h
    have h2 : (Nat.digits 10 m).map Nat.digitChar = (Nat.digits 10 n).map Nat.digitChar := by
      have h3 := congrArg List.reverse h
      simpa using h3
    have hdig := map_digitChar_inj _ _
      (fun x hx => Nat.digits_lt_base (by norm_num) hx)
      (fun x hx => Nat.digits_lt_base (by norm_num) hx) h2
    have hm2 := Nat.ofDigits_digits 10 m
    rw [hdig, Nat.ofDigits_digits 10 n] at hm2
    exact hm2.symm

theorem fracChars_inj {f g : ℕ} (hf : f < 10000) (hg : g < 10000)
    (h : fracChars f = fracChars g) : f = g := by
  unfold fracChars at h
  simp only [List.cons.injEq, and_true] at h
  obtain ⟨h1, h2, h3, h4⟩ := h
  have e1 := digitChar_inj (by omega) (by omega) h1
  have e2 := digitChar_inj (Nat.mod_lt _ (by norm_num)) (Nat.mod_lt _ (by norm_num)) h2
  have e3 := digitChar_inj (Nat.mod_lt _ (by norm_num)) (Nat.mod_lt _ (by norm_num)) h3
  have e4 := digitChar_inj (Nat.mod_lt _ (by norm_num)) (Nat.mod_lt _ (by norm_num)) h4
  omega

theorem append_sep_inj {c : Char} : ∀ (l1 l2 r1 r2 : List Char), c ∉ l1 → c ∉ l2 →
    l1 ++ c :: r1 = l2 ++ c :: r2 → l1 = l2 ∧ r1 = r2 := by
  intro l1
  induction l1 with
  | nil =>
    intro l2 r1 r2 _ h2 h
    cases l2 with
    | nil => simpa using h
    | cons b bs =>
      simp only [List.nil_append, List.cons_append, List.cons.injEq] at h
      exfalso
      apply h2
      rw [h.1]
      exact List.mem_cons_self _ _
  | cons a as ih =>
    intro l2 r1 r2 h1 h2 h
    cases l2 with
    | nil =>
      simp only [List.cons_append, List.nil_append, List.cons.injEq] at h
      exfalso
      apply h1
      rw [← h.1]
      exact List.mem_cons_self _ _
    | cons b bs =>
      simp only [List.cons_append, List.cons.injEq] at h
      obtain ⟨hab, htail⟩ := h
      have hr := ih bs r1 r2 (fun hx => h1 (List.mem_cons_of_mem _ hx))
        (fun hx => h2 (List.mem_cons_of_mem _ hx)) htail
      exact ⟨by rw [hab, hr.1], hr.2⟩

theorem unsignedChars_inj {a b : ℕ}
    (h : natChars (a / 10000) ++ '.' :: fracChars (a % 10000)
       = natChars (b / 10000) ++ '.' :: fracChars (b % 10000)) : a = b := by
  obtain ⟨h1, h2⟩ := append_sep_inj _ _ _ _
    (dot_not_mem_natChars _) (dot_not_mem_natChars _) h
  have e1 := natChars_inj h1
  have e2 := fracChars_inj (Nat.mod_lt _ (by norm_num)) (Nat.mod_lt _ (by norm_num)) h2
  omega

theorem fixedChars_inj {m n : ℤ} (h : fixedChars m = fixedChars n) : m = n := by
  unfold fixedChars at h
  by_cases hm : m < 0 <;> by_cases hn : n < 0
  · rw [if_pos hm, if_pos hn] at h
    simp only [List.singleton_append, List.cons_append, List.cons.injEq, true_and] at h
    have := unsignedChars_inj h
    omega
  · rw [if_pos hm, if_neg hn] at h
    exfalso
    cases hc : natChars (n.natAbs / 10000) with
    | nil => exact natChars_ne_nil _ hc
    | cons c cs =>
      rw [hc] at h
      simp only [List.singleton_append, List.nil_append, List.cons_append,
        List.cons.injEq] at h
      apply dash_not_mem_natChars (n.natAbs / 10000)
      rw [hc, ← h.1]
      exact List.mem_cons_self _ _
  · rw [if_neg hm, if_pos hn] at h
    exfalso
    cases hc : natChars (m.natAbs / 10000) with
    | nil => exact natChars_ne_nil _ hc
    | cons c cs =>
      rw [hc] at h
      simp only [List.singleton_append, List.nil_append, List.cons_append,
        List.cons.injEq] at h
      apply dash_not_mem_natChars (m.natAbs / 10000)
      rw [hc, h.1]
      exact List.mem_cons_self _ _
  · rw [if_neg hm, if_neg hn] at h
    simp only [List.nil_append] at h
    have := unsignedChars_inj h
    omega

theorem round_round4_mul (x : ℚ) : round (round4 x * 10000) = round (x * 10000) := by
  unfold round4
  rw [div_mul_cancel₀ _ (by norm_num : (10000 : ℚ) ≠ 0), round_intCast]

theorem fmt4_round4 (x : ℚ) : fmt4 (round4 x) = ⟨fixedChars (round (x * 10000))⟩ := by
  unfold fmt4
  rw [round_round4_mul]

theorem round4_eq_iff {x y : ℚ} :
    round4 x = round4 y ↔ round (x * 10000) = round (y * 10000) := by
  unfold round4
  constructor
  · intro h
    field_simp at h
    exact_mod_cast h
  · intro h
    rw [h]

theorem round4_idem (x : ℚ) : round4 (round4 x) = round4 x := by
  show (round (round4 x * 10000) : ℚ) / 10000 = round4 x
  rw [round_round4_mul]
  rfl

/-- Core fact behind C3: cache keys agree exactly when the scaled roundings
agree componentwise. -/
theorem cacheKey_eq_iff {lat1 lon1 lat2 lon2 : ℚ} :
    cacheKey lat1 lon1 = cacheKey lat2 lon2 ↔
      round4 lat1 = round4 lat2 ∧ round4 lon1 = round4 lon2 := by
  unfold cacheKey
  rw [fmt4_round4, fmt4_round4, fmt4_round4, fmt4_round4]
  constructor
  · intro h
    have h2 := congrArg String.data h
    rw [String.data_append, String.data_append, String.data_append,
      String.data_append] at h2
    have h3 : fixedChars (round (lat1 * 10000)) ++ ',' :: fixedChars (round (lon1 * 10000))
        = fixedChars (round (lat2 * 10000)) ++ ',' :: fixedChars (round (lon2 * 10000)) := by
      simpa using h2
    obtain ⟨ha, hb⟩ := append_sep_inj _ _ _ _
      (comma_not_mem_fixedChars _) (comma_not_mem_fixedChars _) h3
    exact ⟨round4_eq_iff.mpr (fixedChars_inj ha),
      round4_eq_iff.mpr (fixedChars_inj hb)⟩
  · intro ⟨h1, h2⟩
    rw [round4_eq_iff] at h1 h2
    rw [h1, h2]

/-- Claim C3: Two coordinate pairs produce the same cache key string (each
component rounded to 4 decimals, rendered with fixed 4-decimal precision,
joined by a comma) iff their latitudes round to equal values at 4 decimals
and their longitudes round to equal values at 4 decimals. -/
theorem cacheKey_collision_iff_round4_eq (lat1 lon1 lat2 lon2 : ℚ) :
    cacheKey lat1 lon1 = cacheKey lat2 lon2 ↔
      round4 lat1 = round4 lat2 ∧ round4 lon1 = round4 lon2 :=
  cacheKey_eq_iff

/-! ## Pipeline helper lemmas -/

theorem cacheKey_congr {a1 b1 a2 b2 : ℚ} (h1 : round4 a1 = round4 a2)
    (h2 : round4 b1 = round4 b2) : cacheKey a1 b1 = cacheKey a2 b2 := by
  unfold cacheKey
  rw [h1, h2]

theorem cacheKey_round4 (a b : ℚ) :
    cacheKey (round4 a) (round4 b) = cacheKey a b :=
  cacheKey_congr (round4_idem a) (round4_idem b)

theorem cacheSet_self (c : Cache) (k v : String) : cacheSet c k v k = some v := by
  unfold cacheSet
  rw [if_pos rfl]

theorem cacheSet_other (c : Cache) {k k2 : String} (v : String) (h : k2 ≠ k) :
    cacheSet c k v k2 = c k2 := by
  unfold cacheSet
  rw [if_neg h]

theorem foldl_set_eq_or (g : Geocoder) :
    ∀ (l : List (ℚ × ℚ)) (c : Cache) (k : String),
      (l.foldl (fun acc p => cacheSet acc (cacheKey p.1 p.2) (processCoord g p.1 p.2)) c) k
          = c k
      ∨ ∃ p ∈ l, cacheKey p.1 p.2 = k ∧
          (l.foldl (fun acc p => cacheSet acc (cacheKey p.1 p.2) (processCoord g p.1 p.2)) c) k
            = some (processCoord g p.1 p.2) := by
  intro l
  induction l with
  | nil => intro c k; exact Or.inl rfl
  | cons q t ih =>
    intro c k
    rw [List.foldl_cons]
    rcases ih (cacheSet c (cacheKey q.1 q.2) (processCoord g q.1 q.2)) k with
      h | ⟨p, hp, hk, hv⟩
    · by_cases hq : k = cacheKey q.1 q.2
      · right
        refine ⟨q, List.mem_cons_self _ _, hq.symm, ?_⟩
        rw [h]
        unfold cacheSet
        rw [if_pos hq]
      · left
        rw [h]
        unfold cacheSet
        rw [if_neg hq]
    · right
      exact ⟨p, List.mem_cons_of_mem _ hp, hk, hv⟩

theorem foldl_set_isSome_of_isSome (g : Geocoder) (l : List (ℚ × ℚ)) (c : Cache)
    (k : String) (hck : (c k).isSome) :
    ((l.foldl (fun acc p => cacheSet acc (cacheKey p.1 p.2) (processCoord g p.1 p.2)) c) k).isSome := by
  rcases foldl_set_eq_or g l c k with h | ⟨p, _, _, hv⟩
  · rw [h]; exact hck
  · rw [hv]; rfl

theorem foldl_set_isSome_of_mem (g : Geocoder) :
    ∀ (l : List (ℚ × ℚ)) (c : Cache) (p : ℚ × ℚ), p ∈ l →
      ((l.foldl (fun acc p => cacheSet acc (cacheKey p.1 p.2) (processCoord g p.1 p.2)) c)
        (cacheKey p.1 p.2)).isSome := by
  intro l
  induction l with
  | nil => intro c p hp; simp at hp
  | cons q t ih =>
    intro c p hp
    rw [List.foldl_cons]
    rcases List.mem_cons.mp hp with rfl | hpt
    · apply foldl_set_isSome_of_isSome
      rw [cacheSet_self]
      rfl
    · exact ih _ p hpt

theorem foldl_set_eq_of_not_mem (g : Geocoder) :
    ∀ (l : List (ℚ × ℚ)) (c : Cache) (k : String),
      (∀ p ∈ l, cacheKey p.1 p.2 ≠ k) →
      (l.foldl (fun acc p => cacheSet acc (cacheKey p.1 p.2) (processCoord g p.1 p.2)) c) k
        = c k := by
  intro l
  induction l with
  | nil => intro c k _; rfl
  | cons q t ih =>
    intro c k h
    rw [List.foldl_cons, ih _ k (fun p hp => h p (List.mem_cons_of_mem _ hp)),
      cacheSet_other _ _ (fun he => h q (List.mem_cons_self _ _) he.symm)]

theorem foldl_set_lookup_of_pairwise (g : Geocoder) :
    ∀ (l : List (ℚ × ℚ)) (c : Cache) (p : ℚ × ℚ),
      List.Pairwise (fun a b => cacheKey a.1 a.2 ≠ cacheKey b.1 b.2) l → p ∈ l →
      (l.foldl (fun acc p => cacheSet acc (cacheKey p.1 p.2) (processCoord g p.1 p.2)) c)
          (cacheKey p.1 p.2)
        = some (processCoord g p.1 p.2) := by
  intro l
  induction l with
  | nil => intro c p _ hp; simp at hp
  | cons q t ih =>
    intro c p hpw hp
    obtain ⟨hq, hpw2⟩ := List.pairwise_cons.mp hpw
    rw [List.foldl_cons]
    rcases List.mem_cons.mp hp with rfl | hpt
    · rw [foldl_set_eq_of_not_mem g t _ _ (fun b hb he => hq b hb he.symm),
        cacheSet_self]
    · exact ih _ p hpw2 hpt

/-- When every input coordinate is already cached, `batch_geocode` returns
immediately: untouched cache, empty mapping, zero calls. -/
theorem batchGeocode_all_cached {g : Geocoder} {c : Cache} {L : List (ℚ × ℚ)}
    (h : ∀ p ∈ L, (c (cacheKey p.1 p.2)).isSome) :
    batchGeocode g c L = ⟨c, [], 0⟩ := by
  unfold batchGeocode
  have hnil : (L.filter fun p => (c (cacheKey p.1 p.2)).isNone) = [] := by
    rw [List.filter_eq_nil]
    intro p hp
    have hs := h p hp
    simp only [Option.isNone_iff_eq_none]
    intro hnone
    rw [hnone] at hs
    simp at hs
  simp [hnil]

theorem batchGeocode_filter_ne_nil {c : Cache} {L : List (ℚ × ℚ)}
    (h : ∃ p ∈ L, c (cacheKey p.1 p.2) = none) :
    ((L.filter fun p => (c (cacheKey p.1 p.2)).isNone).isEmpty) = false := by
  obtain ⟨p, hp, hnone⟩ := h
  have hmem : p ∈ L.filter fun p => (c (cacheKey p.1 p.2)).isNone := by
    rw [List.mem_filter]
    exact ⟨hp, by rw [hnone]; rfl⟩
  cases hfilter : L.filter fun p => (c (cacheKey p.1 p.2)).isNone with
  | nil => rw [hfilter] at hmem; simp at hmem
  | cons a t => rfl

theorem batchGeocode_cache_of_uncached {g : Geocoder} {c : Cache} {L : List (ℚ × ℚ)}
    (h : ∃ p ∈ L, c (cacheKey p.1 p.2) = none) :
    (batchGeocode g c L).cache
      = (L.filter fun p => (c (cacheKey p.1 p.2)).isNone).foldl
          (fun acc p => cacheSet acc (cacheKey p.1 p.2) (processCoord g p.1 p.2)) c := by
  have hne := batchGeocode_filter_ne_nil h
  simp [batchGeocode, hne]

theorem batchGeocode_result_of_uncached {g : Geocoder} {c : Cache} {L : List (ℚ × ℚ)}
    (h : ∃ p ∈ L, c (cacheKey p.1 p.2) = none) :
    (batchGeocode g c L).result
      = L.map fun p =>
          ((round4 p.1, round4 p.2),
            ((batchGeocode g c L).cache (cacheKey p.1 p.2)).getD "Error") := by
  rw [batchGeocode_cache_of_uncached h]
  have hne := batchGeocode_filter_ne_nil h
  simp [batchGeocode, hne]

theorem batchGeocode_calls_of_uncached {g : Geocoder} {c : Cache} {L : List (ℚ × ℚ)}
    (h : ∃ p ∈ L, c (cacheKey p.1 p.2) = none) :
    (batchGeocode g c L).calls
      = (L.filter fun p => (c (cacheKey p.1 p.2)).isNone).length := by
  have hne := batchGeocode_filter_ne_nil h
  simp [batchGeocode, hne]

theorem batchGeocode_cache_isSome_of_isSome {g : Geocoder} {c : Cache}
    {L : List (ℚ × ℚ)} {k : String} (hck : (c k).isSome) :
    ((batchGeocode g c L).cache k).isSome := by
  by_cases hall : ∀ p ∈ L, (c (cacheKey p.1 p.2)).isSome
  · rw [batchGeocode_all_cached hall]
    exact hck
  · push_neg at hall
    obtain ⟨p, hp, hnotsome⟩ := hall
    rw [batchGeocode_cache_of_uncached
      ⟨p, hp, Option.not_isSome_iff_eq_none.mp hnotsome⟩]
    exact foldl_set_isSome_of_isSome g _ c k hck

/-- After a batch, the key of every input coordinate is present in the cache. -/
theorem batchGeocode_key_isSome {g : Geocoder} {c : Cache} {L : List (ℚ × ℚ)}
    {p : ℚ × ℚ} (hp : p ∈ L) :
    ((batchGeocode g c L).cache (cacheKey p.1 p.2)).isSome := by
  by_cases hall : ∀ q ∈ L, (c (cacheKey q.1 q.2)).isSome
  · rw [batchGeocode_all_cached hall]
    exact hall p hp
  · push_neg at hall
    obtain ⟨q, hq, hnotsome⟩ := hall
    rw [batchGeocode_cache_of_uncached
      ⟨q, hq, Option.not_isSome_iff_eq_none.mp hnotsome⟩]
    by_cases hc : (c (cacheKey p.1 p.2)).isSome
    · exact foldl_set_isSome_of_isSome g _ c _ hc
    · apply foldl_set_isSome_of_mem
      rw [List.mem_filter]
      exact ⟨hp, by rw [Option.not_isSome_iff_eq_none.mp hc]; rfl⟩

theorem batchGeocode_calls_zero {g : Geocoder} {c : Cache} {L : List (ℚ × ℚ)}
    (h : ∀ p ∈ L, (c (cacheKey p.1 p.2)).isSome) :
    (batchGeocode g c L).calls = 0 := by
  rw [batchGeocode_all_cached h]

/-- The deduplicated rounded list has pairwise distinct cache keys: its
elements are distinct rounded pairs, rounding is idempotent, and by the key
injectivity distinct rounded pairs have distinct keys. -/
theorem mainDedup_pairwise_keys (coords : List (ℚ × ℚ)) :
    List.Pairwise (fun a b => cacheKey a.1 a.2 ≠ cacheKey b.1 b.2)
      (mainDedup coords) := by
  have hnd : (mainDedup coords).Nodup := List.nodup_dedup _
  apply List.Pairwise.imp_of_mem ?_ hnd
  intro a b ha hb hne he
  apply hne
  rw [mainDedup, List.mem_dedup, List.mem_map] at ha hb
  obtain ⟨pa, _, hpa⟩ := ha
  obtain ⟨pb, _, hpb⟩ := hb
  subst hpa
  subst hpb
  dsimp only at he ⊢
  obtain ⟨h1, h2⟩ := cacheKey_eq_iff.mp he
  rw [round4_idem, round4_idem] at h1 h2
  rw [Prod.ext_iff]
  exact ⟨h1, h2⟩

/-- Every element of the deduplicated list is a rounded pair, fixed by
rounding. -/
theorem mainDedup_mem_round4 {coords : List (ℚ × ℚ)} {q : ℚ × ℚ}
    (hq : q ∈ mainDedup coords) : (round4 q.1, round4 q.2) = q := by
  rw [mainDedup, List.mem_dedup, List.mem_map] at hq
  obtain ⟨p, _, hp⟩ := hq
  subst hp
  rw [round4_idem, round4_idem]

theorem round_int_mul (n : ℤ) : round ((n : ℚ) * 10000) = n * 10000 := by
  rw [show ((n : ℚ) * 10000) = ((n * 10000 : ℤ) : ℚ) by push_cast; ring,
    round_intCast]

theorem round4_int (n : ℤ) : round4 (n : ℚ) = n := by
  unfold round4
  rw [round_int_mul]
  push_cast
  field_simp

theorem cacheKey_int (m n : ℤ) :
    cacheKey (m : ℚ) (n : ℚ)
      = (⟨fixedChars (m * 10000)⟩ : String) ++ "," ++ ⟨fixedChars (n * 10000)⟩ := by
  unfold cacheKey
  rw [fmt4_round4, fmt4_round4, round_int_mul, round_int_mul]

/-- Cache value after a batch for an uncached input coordinate, when the
batch input has pairwise distinct keys (as the deduplicated list of the pipeline does): exactly the fresh resolution outcome. -/
theorem batchGeocode_cache_value_of_pairwise {g : Geocoder} {c : Cache}
    {L : List (ℚ × ℚ)} {q : ℚ × ℚ}
    (hpw : List.Pairwise (fun a b => cacheKey a.1 a.2 ≠ cacheKey b.1 b.2) L)
    (hq : q ∈ L) (hqnone : c (cacheKey q.1 q.2) = none) :
    (batchGeocode g c L).cache (cacheKey q.1 q.2) = some (processCoord g q.1 q.2) := by
  rw [batchGeocode_cache_of_uncached ⟨q, hq, hqnone⟩]
  apply foldl_set_lookup_of_pairwise
  · exact List.Pairwise.sublist (List.filter_sublist _) hpw
  · rw [List.mem_filter]
    exact ⟨hq, by rw [hqnone]; rfl⟩

/-! ## Claims -/

/-- Claim C9: Within a run, cache operations only add or overwrite entries,
never remove them: a dictionary assignment preserves the presence of every
key, a whole `batch_geocode` run preserves the presence of every key, and the post-batch value of a key is either its old value or the fresh lookup result of
an input coordinate carrying that key. -/
theorem cache_monotone (c : Cache) (k v k2 : String) (g : Geocoder)
    (L : List (ℚ × ℚ)) :
    ((c k2).isSome → ((cacheSet c k v) k2).isSome)
    ∧ ((c k2).isSome → ((batchGeocode g c L).cache k2).isSome)
    ∧ ((batchGeocode g c L).cache k2 = c k2
       ∨ ∃ p ∈ L, cacheKey p.1 p.2 = k2 ∧
           (batchGeocode g c L).cache k2 = some (processCoord g p.1 p.2)) := by
  refine ⟨?_, ?_, ?_⟩
  · intro h
    unfold cacheSet
    by_cases hk : k2 = k
    · rw [if_pos hk]; rfl
    · rw [if_neg hk]; exact h
  · exact batchGeocode_cache_isSome_of_isSome
  · by_cases hall : ∀ p ∈ L, (c (cacheKey p.1 p.2)).isSome
    · rw [batchGeocode_all_cached hall]
      exact Or.inl rfl
    · push_neg at hall
      obtain ⟨q, hq, hns⟩ := hall
      rw [batchGeocode_cache_of_uncached
        ⟨q, hq, Option.not_isSome_iff_eq_none.mp hns⟩]
      rcases foldl_set_eq_or g _ c k2 with h | ⟨p, hp, hk, hv⟩
      · exact Or.inl h
      · exact Or.inr ⟨p, (List.mem_filter.mp hp).1, hk, hv⟩

/-- Witness for C9 at a concrete cache, key and batch. -/
theorem cache_monotone_witness :
    ((cacheSet cacheOne "k" "v") (cacheKey 1 2)).isSome
    ∧ ((batchGeocode gEmpty cacheOne [(3, 4)]).cache (cacheKey 1 2)).isSome := by
  have hsome : (cacheOne (cacheKey 1 2)).isSome := by
    unfold cacheOne
    rw [cacheSet_self]
    rfl
  have h := cache_monotone cacheOne "k" "v" (cacheKey 1 2) gEmpty [(3, 4)]
  exact ⟨h.1 hsome, h.2.1 hsome⟩

/-- Claim C4 counterexample: the non-empty input list `[(1, 2)]` whose only
coordinate is already cached makes `batch_geocode` return the empty mapping,
which contains no entry for the (rounded) input coordinate — refuting the
inclusion of the all-cached case in the claim. -/
theorem batchGeocode_allCached_counterexample :
    ([((1 : ℚ), (2 : ℚ))] ≠ ([] : List (ℚ × ℚ)))
    ∧ (batchGeocode gEmpty cacheOne [(1, 2)]).result = [] := by
  constructor
  · simp
  · rw [batchGeocode_all_cached]
    intro p hp
    rw [List.mem_singleton] at hp
    subst hp
    unfold cacheOne
    rw [cacheSet_self]
    rfl

/-- Claim C4 amended:  When every input coordinate is already cached,
`batch_geocode` returns the empty mapping.  Otherwise — for any non-empty
input with at least one uncached coordinate — the returned mapping has an
entry for each original (rounded to 4 decimals) input coordinate whose value
is the address re-read from the updated cache under the key of that coordinate
(failed resolutions surface their error string through that cache value),
and every entry carrying that rounded pair holds the same re-read value. -/
theorem batchGeocode_result_spec (g : Geocoder) (c : Cache) (L : List (ℚ × ℚ)) :
    ((∀ q ∈ L, (c (cacheKey q.1 q.2)).isSome) → (batchGeocode g c L).result = [])
    ∧ ((∃ q ∈ L, c (cacheKey q.1 q.2) = none) → ∀ p ∈ L,
        ((round4 p.1, round4 p.2),
          ((batchGeocode g c L).cache (cacheKey p.1 p.2)).getD "Error")
          ∈ (batchGeocode g c L).result
        ∧ ∀ e ∈ (batchGeocode g c L).result,
            e.1 = (round4 p.1, round4 p.2) →
            e.2 = ((batchGeocode g c L).cache (cacheKey p.1 p.2)).getD "Error") := by
  constructor
  · intro h
    rw [batchGeocode_all_cached h]
  · intro h p hp
    rw [batchGeocode_result_of_uncached h]
    constructor
    · rw [List.mem_map]
      exact ⟨p, hp, rfl⟩
    · intro e he hkey
      rw [List.mem_map] at he
      obtain ⟨q, hq, hqe⟩ := he
      subst hqe
      dsimp only at hkey ⊢
      rw [Prod.mk.injEq] at hkey
      have hkeys : cacheKey q.1 q.2 = cacheKey p.1 p.2 :=
        cacheKey_congr hkey.1 hkey.2
      rw [hkeys]

/-- Witness for C4 (amended) at a concrete uncached batch. -/
theorem batchGeocode_result_spec_witness :
    ((round4 3, round4 4),
      ((batchGeocode gEmpty emptyCache [(3, 4)]).cache (cacheKey 3 4)).getD "Error")
      ∈ (batchGeocode gEmpty emptyCache [(3, 4)]).result := by
  have h := (batchGeocode_result_spec gEmpty emptyCache [(3, 4)]).2
    ⟨(3, 4), List.mem_singleton.mpr rfl, rfl⟩ (3, 4) (List.mem_singleton.mpr rfl)
  exact h.1

/-- Claim C6: Fault isolation over the deduplicated rounded list the pipeline
hands to `batch_geocode`: if the resolution of one uncached coordinate raises
an exception, its error string is recorded under the key of that coordinate, every
other uncached coordinate whose resolution succeeds still gets its correct
address, and the returned mapping has an entry for every input coordinate —
so no individual failure aborts the batch (totality of the embedded
resolution step reflects that no exception propagates out). -/
theorem batchGeocode_fault_isolation (g : Geocoder) (c : Cache)
    (coords : List (ℚ × ℚ)) (b : ℚ × ℚ) (hb : b ∈ mainDedup coords)
    (hbu : c (cacheKey b.1 b.2) = none) (e : String)
    (hfail : g b.1 b.2 = .failure e) :
    (batchGeocode g c (mainDedup coords)).cache (cacheKey b.1 b.2)
        = some ("Error: " ++ e)
    ∧ (∀ q ∈ mainDedup coords, c (cacheKey q.1 q.2) = none →
        ∀ a, g q.1 q.2 = .found a →
        (batchGeocode g c (mainDedup coords)).cache (cacheKey q.1 q.2) = some a)
    ∧ (∀ q ∈ mainDedup coords,
        ((round4 q.1, round4 q.2),
          ((batchGeocode g c (mainDedup coords)).cache (cacheKey q.1 q.2)).getD "Error")
          ∈ (batchGeocode g c (mainDedup coords)).result) := by
  have hpw := mainDedup_pairwise_keys coords
  refine ⟨?_, ?_, ?_⟩
  · rw [batchGeocode_cache_value_of_pairwise hpw hb hbu]
    unfold processCoord
    rw [hfail]
  · intro q hq hqnone a hfound
    rw [batchGeocode_cache_value_of_pairwise hpw hq hqnone]
    unfold processCoord
    rw [hfound]
  · intro q hq
    rw [batchGeocode_result_of_uncached ⟨b, hb, hbu⟩, List.mem_map]
    exact ⟨q, hq, rfl⟩

/-- Witness for C6: three uncached coordinates, the middle one failing. -/
theorem batchGeocode_fault_isolation_witness :
    (batchGeocode gFailAt2 emptyCache
        (mainDedup [(1, 2), (2, 3), (3, 4)])).cache (cacheKey 2 3)
      = some ("Error: " ++ "timeout")
    ∧ (batchGeocode gFailAt2 emptyCache
        (mainDedup [(1, 2), (2, 3), (3, 4)])).cache (cacheKey 3 4)
      = some "Resolved Address" := by
  have hm : mainDedup [((1 : ℚ), (2 : ℚ)), (2, 3), (3, 4)]
      = [((1 : ℚ), (2 : ℚ)), (2, 3), (3, 4)] := by
    unfold mainDedup
    simp only [List.map_cons, List.map_nil]
    norm_num [round4, round_eq]
  have hb : ((2 : ℚ), (3 : ℚ)) ∈ mainDedup [((1 : ℚ), (2 : ℚ)), (2, 3), (3, 4)] := by
    rw [hm]
    decide
  have h := batchGeocode_fault_isolation gFailAt2 emptyCache
    [(1, 2), (2, 3), (3, 4)] (2, 3) hb rfl "timeout" (by norm_num [gFailAt2])
  refine ⟨h.1, ?_⟩
  exact h.2.1 (3, 4) (by rw [hm]; decide) rfl "Resolved Address"
    (by norm_num [gFailAt2])

/-- Claim C7: Idempotent re-run and deduplication: (a) re-running
`batch_geocode` on the same deduplicated coordinate set against the cache a
first run produced issues zero resolution calls; (b) a run over the
deduplicated set issues at most one call per distinct rounded pair — at most
the length of the deduplicated set in total; (c) any two raw input coordinates
that round identically at 4 decimals read the same address from the
post-run cache. -/
theorem pipeline_idempotent_dedup (g g2 : Geocoder) (c : Cache)
    (coords : List (ℚ × ℚ)) :
    (batchGeocode g2 (batchGeocode g c (mainDedup coords)).cache
        (mainDedup coords)).calls = 0
    ∧ (batchGeocode g c (mainDedup coords)).calls ≤ (mainDedup coords).length
    ∧ ∀ p q, p ∈ coords → q ∈ coords →
        (round4 p.1, round4 p.2) = (round4 q.1, round4 q.2) →
        ((batchGeocode g c (mainDedup coords)).cache (cacheKey p.1 p.2)).getD
            "Address lookup disabled"
          = ((batchGeocode g c (mainDedup coords)).cache (cacheKey q.1 q.2)).getD
            "Address lookup disabled" := by
  refine ⟨?_, ?_, ?_⟩
  · apply batchGeocode_calls_zero
    intro p hp
    exact batchGeocode_key_isSome hp
  · by_cases hall : ∀ p ∈ mainDedup coords, (c (cacheKey p.1 p.2)).isSome
    · rw [batchGeocode_calls_zero hall]
      exact Nat.zero_le _
    · push_neg at hall
      obtain ⟨q, hq, hns⟩ := hall
      rw [batchGeocode_calls_of_uncached
        ⟨q, hq, Option.not_isSome_iff_eq_none.mp hns⟩]
      exact List.length_filter_le _ _
  · intro p q hp hq he
    rw [Prod.mk.injEq] at he
    rw [cacheKey_congr he.1 he.2]

/-- Witness for C7 at the deduplication example of the spec: two raw coordinates
rounding to the same pair give a zero-call second run and equal addresses. -/
theorem pipeline_idempotent_dedup_witness :
    (batchGeocode gEmpty
        (batchGeocode gEmpty emptyCache (mainDedup dedupExample)).cache
        (mainDedup dedupExample)).calls = 0
    ∧ ((batchGeocode gEmpty emptyCache
          (mainDedup dedupExample)).cache (cacheKey 1.00001 2.00001)).getD
        "Address lookup disabled"
      = ((batchGeocode gEmpty emptyCache
          (mainDedup dedupExample)).cache (cacheKey 1.00002 2.00002)).getD
        "Address lookup disabled" := by
  have h := pipeline_idempotent_dedup gEmpty gEmpty emptyCache dedupExample
  refine ⟨h.1, ?_⟩
  apply h.2.2 (1.00001, 2.00001) (1.00002, 2.00002)
  · exact List.mem_cons_self _ _
  · exact List.mem_cons_of_mem _ (List.mem_cons_self _ _)
  · norm_num [round4, round_eq]

/-- Claim C10: Out-of-range coordinates still reach geocoding: the rounded pair of an invalid input
coordinate is in the deduplicated set handed to
`batch_geocode`; when its key is uncached the batch issues at least one
resolution call; yet the output loop emits no record with those original
coordinates — validation happens only downstream of geocoding. -/
theorem invalid_coords_still_geocoded (g : Geocoder) (c c2 : Cache)
    (coords : List (ℚ × ℚ)) (p : ℚ × ℚ) (hp : p ∈ coords)
    (hinv : ¬(-90 ≤ p.1 ∧ p.1 ≤ 90 ∧ -180 ≤ p.2 ∧ p.2 ≤ 180)) :
    (round4 p.1, round4 p.2) ∈ mainDedup coords
    ∧ (c (cacheKey p.1 p.2) = none →
        1 ≤ (batchGeocode g c (mainDedup coords)).calls)
    ∧ ∀ r ∈ enrich c2 coords, (r.lat, r.lon) ≠ p := by
  have hmem : (round4 p.1, round4 p.2) ∈ mainDedup coords := by
    rw [mainDedup, List.mem_dedup, List.mem_map]
    exact ⟨p, hp, rfl⟩
  refine ⟨hmem, ?_, ?_⟩
  · intro hnone
    have hkey : c (cacheKey (round4 p.1) (round4 p.2)) = none := by
      rw [cacheKey_round4]
      exact hnone
    rw [batchGeocode_calls_of_uncached ⟨(round4 p.1, round4 p.2), hmem, hkey⟩]
    have hf : (round4 p.1, round4 p.2)
        ∈ (mainDedup coords).filter fun q => (c (cacheKey q.1 q.2)).isNone := by
      rw [List.mem_filter]
      exact ⟨hmem, by rw [hkey]; rfl⟩
    exact List.length_pos.mpr (List.ne_nil_of_mem hf)
  · intro r hr
    unfold enrich at hr
    rw [List.mem_filterMap] at hr
    obtain ⟨q, hq, hqr⟩ := hr
    by_cases hv : -90 ≤ q.1 ∧ q.1 ≤ 90 ∧ -180 ≤ q.2 ∧ q.2 ≤ 180
    · rw [if_pos hv] at hqr
      have hrq := Option.some.inj hqr
      subst hrq
      dsimp only
      intro hrp
      apply hinv
      rw [← hrp]
      exact hv
    · rw [if_neg hv] at hqr
      exact absurd hqr (by simp)

/-- Witness for C10 at latitude 100 (out of range). -/
theorem invalid_coords_still_geocoded_witness :
    ((round4 100, round4 200) ∈ mainDedup [((100 : ℚ), (200 : ℚ))])
    ∧ 1 ≤ (batchGeocode gEmpty emptyCache
        (mainDedup [((100 : ℚ), (200 : ℚ))])).calls := by
  have h := invalid_coords_still_geocoded gEmpty emptyCache emptyCache
    [((100 : ℚ), (200 : ℚ))] (100, 200) (List.mem_cons_self _ _)
    (by intro hcon; norm_num at hcon)
  exact ⟨h.1, h.2.1 rfl⟩

/-- Claim C5 counterexample: with address lookup not requested but the loaded
cache (populated by an earlier run, since `load_cache()` runs before the
lookup question) holding an address for (40, −74), the emitted record has
that cached address, not `"Address lookup disabled"` — refuting
the disabled-lookup case of the claim. -/
theorem record_address_counterexample :
    (mainRecords false gEmpty cacheNY [((40 : ℚ), (-74 : ℚ))]).map
        EnrichedRecord.address = ["New York"]
    ∧ "New York" ≠ "Address lookup disabled" := by
  constructor
  · have haddr : cacheNY (cacheKey 40 (-74)) = some "New York" := by
      unfold cacheNY
      rw [cacheSet_self]
    unfold mainRecords mainCache enrich
    norm_num [List.filterMap_cons, haddr]
  · decide

/-- Claim C5 amended: the address of every emitted record equals the value the
post-geocoding cache holds under the rounded key of the record, with default
`"Address lookup disabled"` when the key is absent.  Hence, when lookup was
not requested, the address of a record is `"Address lookup disabled"` exactly
when the loaded cache has no entry for its key — an entry surviving from an
earlier run is surfaced even though lookup was not requested; when lookup
was requested the address is the cached-or-resolved value under the key. -/
theorem record_address_spec (lk : Bool) (g : Geocoder) (c : Cache)
    (coords : List (ℚ × ℚ)) (r : EnrichedRecord)
    (hr : r ∈ mainRecords lk g c coords) :
    r.address = ((mainCache lk g c coords) (cacheKey r.lat r.lon)).getD
        "Address lookup disabled"
    ∧ (lk = false → c (cacheKey r.lat r.lon) = none →
        r.address = "Address lookup disabled")
    ∧ (lk = false → ∀ a, c (cacheKey r.lat r.lon) = some a → r.address = a) := by
  unfold mainRecords enrich at hr
  rw [List.mem_filterMap] at hr
  obtain ⟨q, hq, hqr⟩ := hr
  by_cases hv : -90 ≤ q.1 ∧ q.1 ≤ 90 ∧ -180 ≤ q.2 ∧ q.2 ≤ 180
  · rw [if_pos hv] at hqr
    have hrq := Option.some.inj hqr
    subst hrq
    dsimp only
    refine ⟨rfl, ?_, ?_⟩
    · intro hlk hnone
      subst hlk
      unfold mainCache
      rw [if_neg Bool.false_ne_true, hnone]
      rfl
    · intro hlk a ha
      subst hlk
      unfold mainCache
      rw [if_neg Bool.false_ne_true, ha]
      rfl
  · rw [if_neg hv] at hqr
    exact absurd hqr (by simp)

/-- Witness for C5 (amended): lookup disabled, empty loaded cache — the one
emitted record carries the placeholder address. -/
theorem record_address_spec_witness :
    (mainRecords false gEmpty emptyCache [((40 : ℚ), (-74 : ℚ))]).map
      EnrichedRecord.address = ["Address lookup disabled"] := by
  have hone : ∃ r, mainRecords false gEmpty emptyCache [((40 : ℚ), (-74 : ℚ))]
      = [r] := by
    unfold mainRecords mainCache enrich
    rw [List.filterMap_cons, List.filterMap_nil, if_pos (by norm_num)]
    exact ⟨_, rfl⟩
  obtain ⟨r, hr⟩ := hone
  rw [hr, List.map_cons, List.map_nil,
    (record_address_spec false gEmpty emptyCache [((40 : ℚ), (-74 : ℚ))] r
      (by rw [hr]; exact List.mem_cons_self _ _)).2.1 rfl rfl]

/-- Claim C8: Fatal inputs and the unconditional flush: the effect trace of
`main` always contains the `finally`-clause cache save (on success, fatal
error and partial failure alike), and on each fatal path — no coordinate
source available, or zero valid records reaching the map step — a
user-visible error message is printed. -/
theorem runMain_fatal_and_flush (fe lk : Bool) (g : Geocoder) (c : Cache)
    (coords : List (ℚ × ℚ)) :
    Effect.savedCache ∈ runMain fe lk g c coords
    ∧ (fe = false → ∃ msg, Effect.printedError msg ∈ runMain fe lk g c coords)
    ∧ (mainRecords lk g c coords = [] →
        ∃ msg, Effect.printedError msg ∈ runMain fe lk g c coords) := by
  refine ⟨?_, ?_, ?_⟩
  · unfold runMain
    rw [List.mem_append]
    right
    exact List.mem_singleton.mpr rfl
  · intro hfe
    subst hfe
    refine ⟨"Coordinates file not found. Please create coordinates.csv or use interactive input", ?_⟩
    unfold runMain
    simp
  · intro hrec
    by_cases hfe : fe = false
    · subst hfe
      refine ⟨"Coordinates file not found. Please create coordinates.csv or use interactive input", ?_⟩
      unfold runMain
      simp
    · refine ⟨"division by zero", ?_⟩
      unfold runMain
      rw [if_neg hfe, hrec]
      simp

/-- Witness for C8: missing coordinates file — error printed, cache saved. -/
theorem runMain_fatal_and_flush_witness :
    Effect.savedCache ∈ runMain false false gEmpty emptyCache []
    ∧ ∃ msg, Effect.printedError msg ∈ runMain false false gEmpty emptyCache [] := by
  have h := runMain_fatal_and_flush false false gEmpty emptyCache []
  exact ⟨h.1, h.2.1 rfl⟩

end Geo
